import Mathlib

/-!
Verification of the Atari preprocessing wrapper pipeline (`atari_env.py`).

The base simulator is modelled as a deterministic transition system `Env`
over an abstract state type: `stepFn` returns the successor state together
with a `StepRes` tuple `(obs, reward, done, info)` (rewards are modelled as
rationals), `resetFn` returns the post-reset state and observation, and
`lives` is the simulator's life counter (`env.unwrapped.ale.lives()`,
a non-negative integer, hence `ℕ`).

Each wrapper class of the source is translated to explicit state-passing
functions over an inner `Env`.  Random draws (`np.random.randint`) are
modelled by quantifying over the drawn value.
-/

/-- Result tuple of a single `step` call: `(obs, reward, done, info)`. -/
structure StepRes (Obs Info : Type) where
  obs : Obs
  reward : ℚ
  done : Bool
  info : Info
deriving DecidableEq

/-- The base simulator interface: `step`, `reset`, and the
`ale.lives()` introspection used by `_EpisodicLifeEnv`. -/
structure Env (σ Obs Info : Type) where
  stepFn : σ → ℕ → σ × StepRes Obs Info
  resetFn : σ → σ × Obs
  lives : σ → ℕ

/-- State after iterating `E.stepFn` with the fixed action `a`, `n` times. -/
def after (E : Env σ Obs Info) (a : ℕ) : ℕ → σ → σ
  | 0, s => s
  | n + 1, s => after E a n (E.stepFn s a).1

/-- Results of `n` successive `step` calls with the fixed action `a`. -/
def trace (E : Env σ Obs Info) (a : ℕ) : ℕ → σ → List (StepRes Obs Info)
  | 0, _ => []
  | n + 1, s => (E.stepFn s a).2 :: trace E a n (E.stepFn s a).1

/-- Wrapper-local state of `_EpisodicLifeEnv`: `self.lives`,
`self.was_real_done`, `self.was_real_reset`. -/
structure EpiState where
  lives : ℕ
  was_real_done : Bool
  was_real_reset : Bool
deriving DecidableEq

/-- `_EpisodicLifeEnv.__init__`: `lives = 0`, `was_real_done = True`,
`was_real_reset = False`. -/
def epiInit : EpiState := ⟨0, true, false⟩

/-- `_EpisodicLifeEnv._step`: delegate, record the inner `done` as
`was_real_done`, read the current life count, force `done` when
`lives < self.lives and lives > 0`, then store the new life count. -/
def episodicStep (E : Env σ Obs Info) (p : σ × EpiState) (a : ℕ) :
    (σ × EpiState) × StepRes Obs Info :=
  let q := E.stepFn p.1 a
  let was_real_done := q.2.done
  let lives := E.lives q.1
  let done := if lives < p.2.lives ∧ 0 < lives then true else q.2.done
  ((q.1, ⟨lives, was_real_done, p.2.was_real_reset⟩), { q.2 with done := done })

/-- `_EpisodicLifeEnv._reset`: genuine inner reset when `was_real_done`,
otherwise a single `step(0)`; afterwards refresh `lives` from the
simulator. -/
def episodicReset (E : Env σ Obs Info) (p : σ × EpiState) :
    (σ × EpiState) × Obs :=
  if p.2.was_real_done then
    let q := E.resetFn p.1
    ((q.1, ⟨E.lives q.1, p.2.was_real_done, true⟩), q.2)
  else
    let q := E.stepFn p.1 0
    ((q.1, ⟨E.lives q.1, p.2.was_real_done, false⟩), q.2.obs)

/-- Claim C1: every `_EpisodicLifeEnv._step` call delegates to the inner
step, records the inner `done` as `was_real_done`, reads the simulator's
life count, returns `done = true` exactly when the inner `done` is true or
the new life count is strictly below the stored one while strictly
positive, always stores the new life count, and passes observation,
reward and info through unchanged. -/
theorem episodic_step_spec (E : Env σ Obs Info) (s : σ) (es : EpiState) (a : ℕ) :
    let q := E.stepFn s a
    let nl := E.lives q.1
    let r := episodicStep E (s, es) a
    r.1.1 = q.1 ∧
    r.1.2.lives = nl ∧
    r.1.2.was_real_done = q.2.done ∧
    r.1.2.was_real_reset = es.was_real_reset ∧
    (r.2.done = true ↔ (q.2.done = true ∨ (nl < es.lives ∧ 0 < nl))) ∧
    r.2.obs = q.2.obs ∧ r.2.reward = q.2.reward ∧ r.2.info = q.2.info := by
  by_cases h : E.lives (E.stepFn s a).1 < es.lives ∧ 0 < E.lives (E.stepFn s a).1
  · simp [episodicStep, h]
  · simp [episodicStep, h]

/-- Claim C3: `_EpisodicLifeEnv._reset` performs a genuine inner reset when
`was_real_done` holds and otherwise issues exactly one `step(0)` and uses
its observation; in both cases the stored `lives` is refreshed from the
simulator and `was_real_done` is untouched; `was_real_done` is initialized
to `true`, so the first reset after construction is a genuine inner
reset. -/
theorem episodic_reset_spec (E : Env σ Obs Info) (s : σ) (es : EpiState) :
    let r := episodicReset E (s, es)
    r.2 = (if es.was_real_done then (E.resetFn s).2 else (E.stepFn s 0).2.obs) ∧
    r.1.1 = (if es.was_real_done then (E.resetFn s).1 else (E.stepFn s 0).1) ∧
    r.1.2.lives = E.lives r.1.1 ∧
    r.1.2.was_real_done = es.was_real_done ∧
    r.1.2.was_real_reset = es.was_real_done ∧
    epiInit.was_real_done = true := by
  by_cases h : es.was_real_done
  · simp [episodicReset, epiInit, h]
  · simp [episodicReset, epiInit, h]

/-- Inner environment used to evaluate the claims on concrete inputs:
state is a tick counter, `done` fires on the step taken from tick 1,
observations are `tick + 10`, rewards `tick + 1`. -/
def testEnv : Env ℕ ℕ ℕ where
  stepFn := fun s _ => (s + 1, ⟨s + 10, (s : ℚ) + 1, s == 1, s⟩)
  resetFn := fun _ => (0, 99)
  lives := fun _ => 3

/-- Environment whose life counter drops from 3 to 2 on the second step
while the inner `done` stays `false`. -/
def cexEnv : Env ℕ ℕ ℕ where
  stepFn := fun s _ => (s + 1, ⟨0, 0, false, 0⟩)
  resetFn := fun s => (s, 0)
  lives := fun s => if s ≤ 1 then 3 else 2

/-- Claim C10, counterexample: two `_EpisodicLifeEnv._step` calls issued
after construction with no intervening reset; the second call fires the
synthetic `done` override (life count drops 3 to 2) even though the inner
simulator's `done` is `false`, because `step` itself updates the stored
`lives` away from its initial 0. -/
theorem episodic_prereset_counterexample :
    (episodicStep cexEnv (episodicStep cexEnv (0, epiInit) 0).1 0).2.done = true ∧
    (cexEnv.stepFn 1 0).2.done = false ∧
    (episodicStep cexEnv (0, epiInit) 0).2.done = false := by
  decide

/-- Claim C10, amended: the stored `lives` is initialized to 0 and the
life count is a natural number, so on any `_EpisodicLifeEnv._step` call
taken while the stored `lives` is still 0 (in particular the first step
after construction) the override cannot fire and the inner `done` is
returned unchanged. -/
theorem episodic_zero_lives_spec (E : Env σ Obs Info) (s : σ) (a : ℕ)
    (wrd wrr : Bool) :
    (episodicStep E (s, ⟨0, wrd, wrr⟩) a).2.done = (E.stepFn s a).2.done ∧
    epiInit.lives = 0 := by
  simp [episodicStep, epiInit]

/-- `_NoopResetEnv._reset` loop body: run `step(0)` the given number of
times, keeping only the last observation (`none` when the count is 0, in
which case the source would return an unbound variable). -/
def noopLoop (E : Env σ Obs Info) : ℕ → σ → σ × Option Obs
  | 0, s => (s, none)
  | 1, s =>
      let p := E.stepFn s 0
      (p.1, some p.2.obs)
  | n + 2, s => noopLoop E (n + 1) (E.stepFn s 0).1

/-- `_NoopResetEnv._reset`: inner reset (observation discarded), then the
drawn number `n` of `NOOP` steps; `n` models `np.random.randint(1,
noop_max + 1)`. -/
def noopReset (E : Env σ Obs Info) (n : ℕ) (s : σ) : σ × Option Obs :=
  noopLoop E n (E.resetFn s).1

/-- `_NoopResetEnv` defines no `_step`, so its step is the inner step. -/
def noopStep (E : Env σ Obs Info) : σ → ℕ → σ × StepRes Obs Info :=
  E.stepFn

lemma noopLoop_eq (E : Env σ Obs Info) :
    ∀ (n : ℕ) (s : σ),
      noopLoop E (n + 1) s =
        (after E 0 (n + 1) s,
         ((trace E 0 (n + 1) s).getLast?).map StepRes.obs)
  | 0, s => by simp [noopLoop, after, trace]
  | n + 1, s => by
      have ih := noopLoop_eq E n (E.stepFn s 0).1
      have h2 : trace E 0 (n + 2) s =
          (E.stepFn s 0).2 :: (E.stepFn (E.stepFn s 0).1 0).2 ::
            trace E 0 n (E.stepFn (E.stepFn s 0).1 0).1 := by
        simp [trace]
      rw [show noopLoop E (n + 2) s = noopLoop E (n + 1) (E.stepFn s 0).1 from rfl,
        ih, h2, List.getLast?_cons_cons]
      refine congrArg (fun t => (after E 0 (n + 1) (E.stepFn s 0).1, t)) ?h
      simp [trace]

/-- Claim C4: for every `noop_max` and every possible draw `n` from
`[1, noop_max]`, `_NoopResetEnv._reset` first resets the inner simulator
discarding its observation, then takes exactly `n` `NOOP` steps and
returns the last of their observations; the drawn count always lies in
`[1, noop_max]`; `_NoopResetEnv` does not override `step`. -/
theorem noop_reset_spec (E : Env σ Obs Info) (noop_max n : ℕ) (s : σ)
    (h1 : 1 ≤ n) (h2 : n ≤ noop_max) :
    noopReset E n s =
      (after E 0 n (E.resetFn s).1,
       ((trace E 0 n (E.resetFn s).1).getLast?).map StepRes.obs) ∧
    1 ≤ n ∧ n ≤ noop_max ∧ noopStep E = E.stepFn := by
  obtain ⟨m, rfl⟩ : ∃ m, n = m + 1 := ⟨n - 1, by omega⟩
  exact ⟨noopLoop_eq E m _, h1, h2, rfl⟩

/-- Witness for `noop_reset_spec` at `noop_max = 30`, draw `n = 2`. -/
theorem noop_reset_spec_witness :
    1 ≤ 2 ∧ 2 ≤ 30 ∧
    (noopReset testEnv 2 0 =
      (after testEnv 0 2 (testEnv.resetFn 0).1,
       ((trace testEnv 0 2 (testEnv.resetFn 0).1).getLast?).map StepRes.obs) ∧
     1 ≤ 2 ∧ 2 ≤ 30 ∧ noopStep testEnv = testEnv.stepFn) :=
  ⟨by decide, by decide, noop_reset_spec testEnv 30 2 0 (by decide) (by decide)⟩

/-- `deque(maxlen=2).append`: append on the right, evicting the oldest
element once the buffer holds 2 elements. -/
def dequePush (buf : List Obs) (o : Obs) : List Obs :=
  if buf.length < 2 then buf ++ [o] else buf.tail ++ [o]

/-- `np.max(np.stack(buf), axis=0)` with `m` the element-wise maximum of
two observations: fold of `m` over the buffer's contents, `none` on an
empty buffer (where the source call would raise). -/
def bufMax (m : Obs → Obs → Obs) : List Obs → Option Obs
  | [] => none
  | o :: rest => some (rest.foldl m o)

/-- Final loop state of `_MaxAndSkipEnv._step`: inner state, ring buffer,
accumulated reward, `(obs, done, info)` of the last executed inner step
(`none` when no step ran, where the source's `done`/`info` stay unbound),
and the number of inner steps executed. -/
structure SkipOut (σ Obs Info : Type) where
  state : σ
  buf : List Obs
  total : ℚ
  last : Option (Obs × Bool × Info)
  count : ℕ

/-- The `for _ in range(skip)` loop of `_MaxAndSkipEnv._step`: step with
the same action, push the observation, accumulate the reward; the loop
ends when `done` breaks out of it or no iterations remain, and otherwise
continues with the remaining iterations. -/
def skipLoop (E : Env σ Obs Info) (a : ℕ) :
    ℕ → σ → List Obs → ℚ → SkipOut σ Obs Info
  | 0, s, buf, tot => ⟨s, buf, tot, none, 0⟩
  | n + 1, s, buf, tot =>
      let p := E.stepFn s a
      let buf' := dequePush buf p.2.obs
      let tot' := tot + p.2.reward
      if p.2.done ∨ n = 0 then
        ⟨p.1, buf', tot', some (p.2.obs, p.2.done, p.2.info), 1⟩
      else
        let r := skipLoop E a n p.1 buf' tot'
        ⟨r.state, r.buf, r.total, r.last, r.count + 1⟩

/-- `_MaxAndSkipEnv._step`: run the skip loop starting from reward `0.0`,
then return the element-wise maximum over the ring buffer together with
the accumulated reward and the last step's `done`/`info`. -/
def maxSkipStep (m : Obs → Obs → Obs) (E : Env σ Obs Info) (skip : ℕ)
    (s : σ) (buf : List Obs) (a : ℕ) :
    Option ((σ × List Obs) × Obs × ℚ × Bool × Info) :=
  let r := skipLoop E a skip s buf 0
  match bufMax m r.buf, r.last with
  | some mx, some (_, d, i) => some ((r.state, r.buf), mx, r.total, d, i)
  | _, _ => none

/-- `_MaxAndSkipEnv._reset`: clear the buffer, reset the inner simulator,
push its observation, and return it unmodified. -/
def maxSkipReset (E : Env σ Obs Info) (s : σ) : (σ × List Obs) × Obs :=
  let q := E.resetFn s
  ((q.1, dequePush [] q.2), q.2)

/-- Sum of the rewards of a list of step results. -/
def sumRewards (l : List (StepRes Obs Info)) : ℚ :=
  (l.map StepRes.reward).sum

/-- Push the observations of a list of step results into a ring buffer. -/
def pushAll (buf : List Obs) (l : List (StepRes Obs Info)) : List Obs :=
  l.foldl (fun b r => dequePush b r.obs) buf

lemma sumRewards_cons (x : StepRes Obs Info) (l : List (StepRes Obs Info)) :
    sumRewards (x :: l) = x.reward + sumRewards l := by
  simp [sumRewards]

lemma skipLoop_stop (E : Env σ Obs Info) (a n : ℕ) (s : σ) (buf : List Obs)
    (tot : ℚ) (h : (E.stepFn s a).2.done = true ∨ n = 0) :
    skipLoop E a (n + 1) s buf tot =
      ⟨(E.stepFn s a).1, dequePush buf (E.stepFn s a).2.obs,
        tot + (E.stepFn s a).2.reward,
        some ((E.stepFn s a).2.obs, (E.stepFn s a).2.done, (E.stepFn s a).2.info),
        1⟩ := by
  simp only [skipLoop]
  rw [if_pos h]

lemma skipLoop_go (E : Env σ Obs Info) (a n : ℕ) (s : σ) (buf : List Obs)
    (tot : ℚ) (hd : (E.stepFn s a).2.done = false) :
    skipLoop E a (n + 2) s buf tot =
      ⟨(skipLoop E a (n + 1) (E.stepFn s a).1
          (dequePush buf (E.stepFn s a).2.obs)
          (tot + (E.stepFn s a).2.reward)).state,
       (skipLoop E a (n + 1) (E.stepFn s a).1
          (dequePush buf (E.stepFn s a).2.obs)
          (tot + (E.stepFn s a).2.reward)).buf,
       (skipLoop E a (n + 1) (E.stepFn s a).1
          (dequePush buf (E.stepFn s a).2.obs)
          (tot + (E.stepFn s a).2.reward)).total,
       (skipLoop E a (n + 1) (E.stepFn s a).1
          (dequePush buf (E.stepFn s a).2.obs)
          (tot + (E.stepFn s a).2.reward)).last,
       (skipLoop E a (n + 1) (E.stepFn s a).1
          (dequePush buf (E.stepFn s a).2.obs)
          (tot + (E.stepFn s a).2.reward)).count + 1⟩ := by
  simp [skipLoop, hd]

lemma skipLoop_char (E : Env σ Obs Info) (a : ℕ) :
    ∀ (n : ℕ) (s : σ) (buf : List Obs) (tot : ℚ),
      1 ≤ (skipLoop E a (n + 1) s buf tot).count ∧
      (skipLoop E a (n + 1) s buf tot).count ≤ n + 1 ∧
      (skipLoop E a (n + 1) s buf tot).state =
        after E a (skipLoop E a (n + 1) s buf tot).count s ∧
      (skipLoop E a (n + 1) s buf tot).buf =
        pushAll buf (trace E a (skipLoop E a (n + 1) s buf tot).count s) ∧
      (skipLoop E a (n + 1) s buf tot).total =
        tot + sumRewards (trace E a (skipLoop E a (n + 1) s buf tot).count s) ∧
      (∀ x ∈ (trace E a (skipLoop E a (n + 1) s buf tot).count s).dropLast,
        x.done = false) ∧
      ∃ lst, (trace E a (skipLoop E a (n + 1) s buf tot).count s).getLast? = some lst ∧
        (skipLoop E a (n + 1) s buf tot).last =
          some (lst.obs, lst.done, lst.info) ∧
        (lst.done = true ∨ (skipLoop E a (n + 1) s buf tot).count = n + 1)
  | 0, s, buf, tot => by
      rw [skipLoop_stop E a 0 s buf tot (Or.inr rfl)]
      simp [trace, after, pushAll, sumRewards, dequePush]
  | n + 1, s, buf, tot => by
      by_cases hd : (E.stepFn s a).2.done
      · rw [skipLoop_stop E a (n + 1) s buf tot (Or.inl hd)]
        simp [trace, after, pushAll, sumRewards, hd]
      · have hd' : (E.stepFn s a).2.done = false := by
          simpa using hd
        obtain ⟨h1, h2, h3, h4, h5, h6, lst, hl1, hl2, hl3⟩ :=
          skipLoop_char E a n (E.stepFn s a).1
            (dequePush buf (E.stepFn s a).2.obs)
            (tot + (E.stepFn s a).2.reward)
        rw [skipLoop_go E a n s buf tot hd']
        set r' := skipLoop E a (n + 1) (E.stepFn s a).1
          (dequePush buf (E.stepFn s a).2.obs)
          (tot + (E.stepFn s a).2.reward) with hr'
        have htr : trace E a (r'.count + 1) s =
            (E.stepFn s a).2 :: trace E a r'.count (E.stepFn s a).1 := rfl
        have haf : after E a (r'.count + 1) s =
            after E a r'.count (E.stepFn s a).1 := rfl
        obtain ⟨y, ys, hys⟩ :
            ∃ y ys, trace E a r'.count (E.stepFn s a).1 = y :: ys := by
          rcases htr' : trace E a r'.count (E.stepFn s a).1 with _ | ⟨y, ys⟩
          · rw [htr'] at hl1; simp at hl1
          · exact ⟨y, ys, rfl⟩
        refine ⟨?_, ?_, ?_, ?_, ?_, ?_, lst, ?_, hl2, ?_⟩
        · show 1 ≤ r'.count + 1
          omega
        · show r'.count + 1 ≤ n + 1 + 1
          omega
        · simpa [htr, haf] using h3
        · show r'.buf = pushAll buf (trace E a (r'.count + 1) s)
          rw [htr]
          exact h4
        · show r'.total = tot + sumRewards (trace E a (r'.count + 1) s)
          rw [htr, sumRewards_cons, h5]
          ring
        · show ∀ x ∈ (trace E a (r'.count + 1) s).dropLast, x.done = false
          rw [htr, hys, List.dropLast_cons₂]
          intro x hx
          rcases List.mem_cons.mp hx with h | h
          · rw [h]; exact hd'
          · exact h6 x (by rw [hys]; exact h)
        · show (trace E a (r'.count + 1) s).getLast? = some lst
          rw [htr, hys, List.getLast?_cons_cons]
          rw [hys] at hl1
          exact hl1
        · rcases hl3 with h | h
          · exact Or.inl h
          · refine Or.inr ?_
            show r'.count + 1 = n + 1 + 1
            omega

/-- Claim C2: `_MaxAndSkipEnv._step` with configured skip count `k` issues
the same action at most `k` times, stopping after the first inner step
whose `done` is true; every executed observation is pushed into the
capacity-2 ring buffer; the returned reward is the sum of the rewards of
exactly the executed inner steps; the returned observation is the
element-wise maximum over the ring buffer's contents; and the returned
`done` and `info` are those of the last executed inner step. -/
theorem maxskip_step_spec (m : Obs → Obs → Obs) (E : Env σ Obs Info)
    (a k : ℕ) (s : σ) (buf : List Obs) (hk : 1 ≤ k) :
    1 ≤ (skipLoop E a k s buf 0).count ∧
    (skipLoop E a k s buf 0).count ≤ k ∧
    (skipLoop E a k s buf 0).state =
      after E a (skipLoop E a k s buf 0).count s ∧
    (skipLoop E a k s buf 0).buf =
      pushAll buf (trace E a (skipLoop E a k s buf 0).count s) ∧
    (skipLoop E a k s buf 0).total =
      sumRewards (trace E a (skipLoop E a k s buf 0).count s) ∧
    (∀ x ∈ (trace E a (skipLoop E a k s buf 0).count s).dropLast,
      x.done = false) ∧
    ∃ lst, (trace E a (skipLoop E a k s buf 0).count s).getLast? = some lst ∧
      (lst.done = true ∨ (skipLoop E a k s buf 0).count = k) ∧
      maxSkipStep m E k s buf a =
        (bufMax m (skipLoop E a k s buf 0).buf).map
          (fun mx =>
            (((skipLoop E a k s buf 0).state, (skipLoop E a k s buf 0).buf),
              mx, (skipLoop E a k s buf 0).total, lst.done, lst.info)) := by
  obtain ⟨n, rfl⟩ : ∃ n, k = n + 1 := ⟨k - 1, by omega⟩
  obtain ⟨h1, h2, h3, h4, h5, h6, lst, hl1, hl2, hl3⟩ := skipLoop_char E a n s buf 0
  refine ⟨h1, h2, h3, h4, by simpa using h5, h6, lst, hl1, hl3, ?_⟩
  cases hb : bufMax m (skipLoop E a (n + 1) s buf 0).buf with
  | none => simp [maxSkipStep, hl2, hb]
  | some mx => simp [maxSkipStep, hl2, hb]

/-- Witness for `maxskip_step_spec`: the concrete environment reports
`done` on its second tick, so a 4-tick skip executes exactly 2 inner
steps. -/
theorem maxskip_step_spec_witness :
    1 ≤ 4 ∧
    (1 ≤ (skipLoop testEnv 0 4 0 [] 0).count ∧
    (skipLoop testEnv 0 4 0 [] 0).count ≤ 4 ∧
    (skipLoop testEnv 0 4 0 [] 0).state =
      after testEnv 0 (skipLoop testEnv 0 4 0 [] 0).count 0 ∧
    (skipLoop testEnv 0 4 0 [] 0).buf =
      pushAll [] (trace testEnv 0 (skipLoop testEnv 0 4 0 [] 0).count 0) ∧
    (skipLoop testEnv 0 4 0 [] 0).total =
      sumRewards (trace testEnv 0 (skipLoop testEnv 0 4 0 [] 0).count 0) ∧
    (∀ x ∈ (trace testEnv 0 (skipLoop testEnv 0 4 0 [] 0).count 0).dropLast,
      x.done = false) ∧
    ∃ lst,
      (trace testEnv 0 (skipLoop testEnv 0 4 0 [] 0).count 0).getLast? = some lst ∧
      (lst.done = true ∨ (skipLoop testEnv 0 4 0 [] 0).count = 4) ∧
      maxSkipStep Nat.max testEnv 4 0 [] 0 =
        (bufMax Nat.max (skipLoop testEnv 0 4 0 [] 0).buf).map
          (fun mx =>
            (((skipLoop testEnv 0 4 0 [] 0).state,
              (skipLoop testEnv 0 4 0 [] 0).buf),
              mx, (skipLoop testEnv 0 4 0 [] 0).total, lst.done, lst.info))) :=
  ⟨by decide, maxskip_step_spec Nat.max testEnv 0 4 0 [] (by decide)⟩

lemma dequePush_length (buf : List Obs) (o : Obs) (h : buf.length ≤ 2) :
    1 ≤ (dequePush buf o).length ∧ (dequePush buf o).length ≤ 2 := by
  unfold dequePush
  split <;> simp [List.length_tail] <;> omega

lemma pushAll_length :
    ∀ (l : List (StepRes Obs Info)) (buf : List Obs),
      buf.length ≤ 2 → l ≠ [] →
        1 ≤ (pushAll buf l).length ∧ (pushAll buf l).length ≤ 2
  | [], _, _, hne => absurd rfl hne
  | x :: l, buf, h, _ => by
      cases l with
      | nil => exact dequePush_length buf x.obs h
      | cons y ys =>
          exact pushAll_length (y :: ys) (dequePush buf x.obs)
            (dequePush_length buf x.obs h).2 (List.cons_ne_nil y ys)

lemma bufMax_of_ne_nil (m : Obs → Obs → Obs) (l : List Obs) (h : l ≠ []) :
    ∃ mx, bufMax m l = some mx := by
  cases l with
  | nil => exact absurd rfl h
  | cons o rest => exact ⟨rest.foldl m o, rfl⟩

/-- Claim C9: for any configured `skip ≥ 1` and any ring buffer respecting
its capacity invariant, `_MaxAndSkipEnv._step` executes at least one inner
step, the buffer it max-pools over is non-empty with 1 or 2 elements, and
the step returns the `done`/`info` of the last executed inner step rather
than the uninitialized placeholder. -/
theorem maxskip_nonempty_spec (m : Obs → Obs → Obs) (E : Env σ Obs Info)
    (a k : ℕ) (s : σ) (buf : List Obs) (hk : 1 ≤ k) (hb : buf.length ≤ 2) :
    1 ≤ (skipLoop E a k s buf 0).count ∧
    1 ≤ (skipLoop E a k s buf 0).buf.length ∧
    (skipLoop E a k s buf 0).buf.length ≤ 2 ∧
    ∃ mx, bufMax m (skipLoop E a k s buf 0).buf = some mx ∧
      ∃ lst,
        (trace E a (skipLoop E a k s buf 0).count s).getLast? = some lst ∧
        maxSkipStep m E k s buf a =
          some (((skipLoop E a k s buf 0).state, (skipLoop E a k s buf 0).buf),
            mx, (skipLoop E a k s buf 0).total, lst.done, lst.info) := by
  obtain ⟨n, rfl⟩ : ∃ n, k = n + 1 := ⟨k - 1, by omega⟩
  obtain ⟨h1, h2, h3, h4, h5, h6, lst, hl1, hl2, hl3⟩ := skipLoop_char E a n s buf 0
  have htrne : trace E a (skipLoop E a (n + 1) s buf 0).count s ≠ [] := by
    intro h
    rw [h] at hl1
    simp at hl1
  have hlen := pushAll_length (trace E a (skipLoop E a (n + 1) s buf 0).count s)
    buf hb htrne
  rw [← h4] at hlen
  have hbufne : (skipLoop E a (n + 1) s buf 0).buf ≠ [] := by
    intro h
    rw [h] at hlen
    simp at hlen
  obtain ⟨mx, hmx⟩ := bufMax_of_ne_nil m _ hbufne
  refine ⟨h1, hlen.1, hlen.2, mx, hmx, lst, hl1, ?_⟩
  simp [maxSkipStep, hl2, hmx]

/-- Witness for `maxskip_nonempty_spec` at `skip = 2` with a one-element
starting buffer. -/
theorem maxskip_nonempty_spec_witness :
    1 ≤ 2 ∧ ([7].length ≤ 2) ∧
    (1 ≤ (skipLoop testEnv 0 2 0 [7] 0).count ∧
    1 ≤ (skipLoop testEnv 0 2 0 [7] 0).buf.length ∧
    (skipLoop testEnv 0 2 0 [7] 0).buf.length ≤ 2 ∧
    ∃ mx, bufMax Nat.max (skipLoop testEnv 0 2 0 [7] 0).buf = some mx ∧
      ∃ lst,
        (trace testEnv 0 (skipLoop testEnv 0 2 0 [7] 0).count 0).getLast? =
          some lst ∧
        maxSkipStep Nat.max testEnv 2 0 [7] 0 =
          some (((skipLoop testEnv 0 2 0 [7] 0).state,
            (skipLoop testEnv 0 2 0 [7] 0).buf),
            mx, (skipLoop testEnv 0 2 0 [7] 0).total, lst.done, lst.info)) :=
  ⟨by decide, by decide,
    maxskip_nonempty_spec Nat.max testEnv 0 2 0 [7] (by decide) (by decide)⟩

/-- `np.sign` on the reward: `-1` for negative, `0` for zero, `+1` for
positive. -/
def np_sign (r : ℚ) : ℚ :=
  if r < 0 then -1 else if 0 < r then 1 else 0

/-- `_ClippedRewardsWrapper._step`: delegate, then replace the reward with
`np.sign(reward)`. -/
def clippedStep (E : Env σ Obs Info) (s : σ) (a : ℕ) : σ × StepRes Obs Info :=
  let p := E.stepFn s a
  (p.1, { p.2 with reward := np_sign p.2.reward })

/-- `_ClippedRewardsWrapper` defines no `_reset`, so its reset is the
inner reset. -/
def clippedReset (E : Env σ Obs Info) : σ → σ × Obs :=
  E.resetFn

/-- Claim C6: `_ClippedRewardsWrapper._step` delegates to the inner step
and returns the same observation, `done` and `info`, replacing the reward
with its sign (`-1`/`0`/`+1` for negative/zero/positive; in particular
`-5, 0, 0.3, 7` map to `-1, 0, 1, 1`); the wrapper does not override
`reset`. -/
theorem clipped_rewards_spec (E : Env σ Obs Info) (s : σ) (a : ℕ) :
    (clippedStep E s a).1 = (E.stepFn s a).1 ∧
    (clippedStep E s a).2.obs = (E.stepFn s a).2.obs ∧
    (clippedStep E s a).2.done = (E.stepFn s a).2.done ∧
    (clippedStep E s a).2.info = (E.stepFn s a).2.info ∧
    (clippedStep E s a).2.reward = np_sign (E.stepFn s a).2.reward ∧
    (∀ r : ℚ,
      (np_sign r = -1 ↔ r < 0) ∧ (np_sign r = 0 ↔ r = 0) ∧
      (np_sign r = 1 ↔ 0 < r)) ∧
    np_sign (-5) = -1 ∧ np_sign 0 = 0 ∧ np_sign (3 / 10) = 1 ∧
    np_sign 7 = 1 ∧
    clippedReset E = E.resetFn := by
  refine ⟨rfl, rfl, rfl, rfl, rfl, ?_, by norm_num [np_sign],
    by norm_num [np_sign], by norm_num [np_sign], by norm_num [np_sign], rfl⟩
  intro r
  rcases lt_trichotomy r 0 with h | h | h
  · norm_num [np_sign, h, h.ne, lt_asymm h]
  · norm_num [np_sign, h]
  · norm_num [np_sign, h, h.ne', lt_asymm h]

/-- One wrapping layer, tagged with its configuration. -/
inductive StageTag where
  | lifeBoundary
  | warmUp (noop_max : ℕ)
  | maxSkip (skip : ℕ)
  | fireToStart
  | visualNormalizer
  | rewardClipper
deriving DecidableEq

/-- A pipeline: base simulator wrapped by a stack of stages. -/
inductive Wrapped where
  | base
  | episodicLife (inner : Wrapped)
  | noopResetW (noop_max : ℕ) (inner : Wrapped)
  | maxAndSkip (skip : ℕ) (inner : Wrapped)
  | fireResetW (inner : Wrapped)
  | processFrame84W (inner : Wrapped)
  | clippedRewardsW (inner : Wrapped)
deriving DecidableEq

/-- Stage tags of a pipeline, listed innermost first. -/
def stagesOf : Wrapped → List StageTag
  | .base => []
  | .episodicLife w => stagesOf w ++ [.lifeBoundary]
  | .noopResetW n w => stagesOf w ++ [.warmUp n]
  | .maxAndSkip k w => stagesOf w ++ [.maxSkip k]
  | .fireResetW w => stagesOf w ++ [.fireToStart]
  | .processFrame84W w => stagesOf w ++ [.visualNormalizer]
  | .clippedRewardsW w => stagesOf w ++ [.rewardClipper]

/-- `_wrap_deepmind`: the visual recipe's sequence of wrapper
constructions around the base simulator (`_FireResetEnv` is added exactly
when `'FIRE'` is among the action meanings). -/
def wrap_deepmind (meanings : List String) : Wrapped :=
  let env := Wrapped.base
  let env := Wrapped.episodicLife env
  let env := Wrapped.noopResetW 30 env
  let env := Wrapped.maxAndSkip 4 env
  let env := if "FIRE" ∈ meanings then Wrapped.fireResetW env else env
  let env := Wrapped.processFrame84W env
  Wrapped.clippedRewardsW env

/-- `_wrap_deepmind_ram`: the state-vector recipe (no `_ProcessFrame84`). -/
def wrap_deepmind_ram (meanings : List String) : Wrapped :=
  let env := Wrapped.base
  let env := Wrapped.episodicLife env
  let env := Wrapped.noopResetW 30 env
  let env := Wrapped.maxAndSkip 4 env
  let env := if "FIRE" ∈ meanings then Wrapped.fireResetW env else env
  Wrapped.clippedRewardsW env

/-- Claim C7: the visual recipe wraps the base simulator, innermost to
outermost, with Life-Boundary, Warm-up(30), Frame-Skip+Max-Pool(4),
Fire-to-Start exactly when `FIRE` is a legal action label, Visual
Normalizer, Reward Clipper; the state-vector recipe is identical except
that it omits the Visual Normalizer. -/
theorem pipeline_order_spec (meanings : List String) :
    stagesOf (wrap_deepmind meanings) =
      [StageTag.lifeBoundary, StageTag.warmUp 30, StageTag.maxSkip 4] ++
        (if "FIRE" ∈ meanings then [StageTag.fireToStart] else []) ++
        [StageTag.visualNormalizer, StageTag.rewardClipper] ∧
    stagesOf (wrap_deepmind_ram meanings) =
      [StageTag.lifeBoundary, StageTag.warmUp 30, StageTag.maxSkip 4] ++
        (if "FIRE" ∈ meanings then [StageTag.fireToStart] else []) ++
        [StageTag.rewardClipper] := by
  by_cases h : "FIRE" ∈ meanings <;>
    simp [wrap_deepmind, wrap_deepmind_ram, stagesOf, h]

/-- `_NoopResetEnv.__init__` assertion:
`env.unwrapped.get_action_meanings()[0] == 'NOOP'`; `none` models the
fatal `AssertionError` at construction. -/
def noop_ctor (meanings : List String) : Option Unit :=
  if meanings.get? 0 = some "NOOP" then some () else none

/-- `_FireResetEnv.__init__` assertions:
`get_action_meanings()[1] == 'FIRE'` and at least 3 actions. -/
def fire_ctor (meanings : List String) : Option Unit :=
  if meanings.get? 1 = some "FIRE" ∧ 3 ≤ meanings.length then some ()
  else none

/-- `_wrap_deepmind_ram` with its construction-time assertion checks:
the checks run while the pipeline is assembled, before any step or
reset is issued. -/
def wrap_deepmind_ram_checked (meanings : List String) : Option Wrapped :=
  match noop_ctor meanings with
  | none => none
  | some _ =>
      if "FIRE" ∈ meanings then
        match fire_ctor meanings with
        | none => none
        | some _ => some (wrap_deepmind_ram meanings)
      else some (wrap_deepmind_ram meanings)

/-- Claim C8: the action-label preconditions are checked at stage
construction: `_NoopResetEnv` requires `NOOP` at index 0, `_FireResetEnv`
requires `FIRE` at index 1 and at least 3 actions; assembling the
pipeline succeeds exactly when every constructed stage's check passes,
and a successful construction returns the assembled pipeline itself —
the step/reset semantics (`noopStep`, `episodicStep`, `skipLoop`,
`clippedStep`, ...) take no action-label table at all, so no such check
can fire after construction. -/
theorem construction_checks_spec (meanings : List String) :
    ((noop_ctor meanings).isSome ↔ meanings.get? 0 = some "NOOP") ∧
    ((fire_ctor meanings).isSome ↔
      (meanings.get? 1 = some "FIRE" ∧ 3 ≤ meanings.length)) ∧
    wrap_deepmind_ram_checked meanings =
      (if meanings.get? 0 = some "NOOP" ∧
          ("FIRE" ∈ meanings →
            (meanings.get? 1 = some "FIRE" ∧ 3 ≤ meanings.length))
       then some (wrap_deepmind_ram meanings) else none) := by
  refine ⟨?_, ?_, ?_⟩
  · unfold noop_ctor
    split <;> simp_all
  · unfold fire_ctor
    split <;> simp_all
  · unfold wrap_deepmind_ram_checked noop_ctor fire_ctor
    by_cases h0 : meanings.get? 0 = some "NOOP" <;>
      by_cases h1 : "FIRE" ∈ meanings <;>
        by_cases h2 : meanings.get? 1 = some "FIRE" ∧ 3 ≤ meanings.length <;>
          simp_all [List.get?_eq_getElem?] <;>
            (try (by_cases h3 : meanings[1]? = some "FIRE" ∧ 3 ≤ meanings.length <;>
              simp [h3]))

/-- Linear interpolation `a + w * (b - a)`, i.e. `(1 - w) * a + w * b`. -/
def qlerp (a b w : ℚ) : ℚ := a + w * (b - a)

/-- Luminance plane of `_process_frame84`:
`img[:, :, 0] * 0.299 + img[:, :, 1] * 0.587 + img[:, :, 2] * 0.114`
with exact rational intermediates in place of `float32`. -/
def luminance (f : Fin 210 → Fin 160 → Fin 3 → ℕ) (i : Fin 210) (j : Fin 160) :
    ℚ :=
  (f i j 0 : ℚ) * (299 / 1000) + (f i j 1 : ℚ) * (587 / 1000) +
    (f i j 2 : ℚ) * (114 / 1000)

/-- Source sampling of `cv2.resize(..., interpolation=cv2.INTER_LINEAR)`:
for a source coordinate `q`, the two neighbouring (clamped) source
indices and the fractional interpolation weight. -/
def srcIndex (srcLen : ℕ) (hpos : 0 < srcLen) (q : ℚ) :
    Fin srcLen × Fin srcLen × ℚ :=
  let c := max q 0
  let i0 : Fin srcLen := ⟨min c.floor.toNat (srcLen - 1), by omega⟩
  let i1 : Fin srcLen := ⟨min (i0.val + 1) (srcLen - 1), by omega⟩
  (i0, i1, Int.fract c)

/-- `cv2.resize(img, (84, 110), interpolation=cv2.INTER_LINEAR)`: bilinear
resampling of the 210x160 luminance plane to height 110, width 84, with
the standard half-pixel coordinate mapping
`src = (dst + 0.5) * srcLen / dstLen - 0.5`. -/
def resizeLinear (g : Fin 210 → Fin 160 → ℚ) (i : Fin 110) (j : Fin 84) : ℚ :=
  let fy := ((i : ℚ) + 1 / 2) * 210 / 110 - 1 / 2
  let fx := ((j : ℚ) + 1 / 2) * 160 / 84 - 1 / 2
  let py := srcIndex 210 (by norm_num) fy
  let px := srcIndex 160 (by norm_num) fx
  qlerp (qlerp (g py.1 px.1) (g py.1 px.2.1) px.2.2)
    (qlerp (g py.2.1 px.1) (g py.2.1 px.2.1) px.2.2)
    py.2.2

/-- `_process_frame84`: luminance, resize to 84x110, crop rows `18:102`
(84 rows), reshape to 84x84x1, truncate to 8-bit unsigned
(`astype(np.uint8)`, truncation toward zero of the non-negative
intermediate). -/
def process_frame84 (f : Fin 210 → Fin 160 → Fin 3 → ℕ) (i j : Fin 84)
    (_c : Fin 1) : ℕ :=
  (⌊resizeLinear (luminance f) ⟨i.val + 18, by have := i.isLt; omega⟩ j⌋).toNat

lemma qlerp_bound {a b w : ℚ} (ha0 : 0 ≤ a) (ha : a ≤ 255) (hb0 : 0 ≤ b)
    (hb : b ≤ 255) (hw0 : 0 ≤ w) (hw : w ≤ 1) :
    0 ≤ qlerp a b w ∧ qlerp a b w ≤ 255 := by
  unfold qlerp
  constructor <;> nlinarith

lemma luminance_bound (f : Fin 210 → Fin 160 → Fin 3 → ℕ)
    (hf : ∀ i j c, f i j c ≤ 255) (i : Fin 210) (j : Fin 160) :
    0 ≤ luminance f i j ∧ luminance f i j ≤ 255 := by
  have h0 : (f i j 0 : ℚ) ≤ 255 := by exact_mod_cast hf i j 0
  have h1 : (f i j 1 : ℚ) ≤ 255 := by exact_mod_cast hf i j 1
  have h2 : (f i j 2 : ℚ) ≤ 255 := by exact_mod_cast hf i j 2
  have g0 : (0 : ℚ) ≤ (f i j 0 : ℚ) := by positivity
  have g1 : (0 : ℚ) ≤ (f i j 1 : ℚ) := by positivity
  have g2 : (0 : ℚ) ≤ (f i j 2 : ℚ) := by positivity
  unfold luminance
  constructor <;> nlinarith

lemma srcIndex_w_bound (srcLen : ℕ) (hpos : 0 < srcLen) (q : ℚ) :
    0 ≤ (srcIndex srcLen hpos q).2.2 ∧ (srcIndex srcLen hpos q).2.2 ≤ 1 := by
  unfold srcIndex
  exact ⟨Int.fract_nonneg _, le_of_lt (Int.fract_lt_one _)⟩

lemma resizeLinear_bound (g : Fin 210 → Fin 160 → ℚ)
    (hg : ∀ i j, 0 ≤ g i j ∧ g i j ≤ 255) (i : Fin 110) (j : Fin 84) :
    0 ≤ resizeLinear g i j ∧ resizeLinear g i j ≤ 255 := by
  have hwy := srcIndex_w_bound 210 (by norm_num)
    (((i : ℚ) + 1 / 2) * 210 / 110 - 1 / 2)
  have hwx := srcIndex_w_bound 160 (by norm_num)
    (((j : ℚ) + 1 / 2) * 160 / 84 - 1 / 2)
  show 0 ≤ resizeLinear g i j ∧ resizeLinear g i j ≤ 255
  unfold resizeLinear
  exact qlerp_bound
    (qlerp_bound (hg _ _).1 (hg _ _).2 (hg _ _).1 (hg _ _).2 hwx.1 hwx.2).1
    (qlerp_bound (hg _ _).1 (hg _ _).2 (hg _ _).1 (hg _ _).2 hwx.1 hwx.2).2
    (qlerp_bound (hg _ _).1 (hg _ _).2 (hg _ _).1 (hg _ _).2 hwx.1 hwx.2).1
    (qlerp_bound (hg _ _).1 (hg _ _).2 (hg _ _).1 (hg _ _).2 hwx.1 hwx.2).2
    hwy.1 hwy.2

/-- Claim C5: for every raw 210x160x3 8-bit frame, `_process_frame84`
produces an 84x84x1 buffer (the index types) whose every entry lies in
`[0, 255]` (non-negativity holds by the `ℕ` codomain). -/
theorem process_frame84_spec (f : Fin 210 → Fin 160 → Fin 3 → ℕ)
    (hf : ∀ i j c, f i j c ≤ 255) (i j : Fin 84) (c : Fin 1) :
    process_frame84 f i j c ≤ 255 := by
  unfold process_frame84
  have hb := resizeLinear_bound (luminance f) (fun i j => luminance_bound f hf i j)
    ⟨i.val + 18, by have := i.isLt; omega⟩ j
  have hfloor : ⌊resizeLinear (luminance f)
      ⟨i.val + 18, by have := i.isLt; omega⟩ j⌋ ≤ 255 := by
    have := Int.floor_le_floor hb.2
    simpa using this
  exact Int.toNat_le.mpr hfloor

/-- Witness for `process_frame84_spec` on the constant frame of
intensity 200. -/
theorem process_frame84_spec_witness :
    process_frame84 (fun _ _ _ => 200) 0 0 0 ≤ 255 :=
  process_frame84_spec (fun _ _ _ => 200) (fun _ _ _ => by norm_num) 0 0 0
